import Mathlib

/-!
Verification development for src/mandelbrot.c: a StarPU-based Mandelbrot
renderer.  The C program is shallowly embedded below: pure C functions become
Lean functions, the result buffer becomes an explicit `List Int` threaded
through the task executions, and the task-runtime interaction (codelet modes,
task submission, argument unpacking, barrier) is modelled as data plus a fold
over the submitted tasks; a unit execution that performs an out-of-bounds
store (undefined behaviour) is modelled as `none`.  The argument unpacking
follows the semantics of `starpu_codelet_unpack_args`, whose every call
restarts at the head of the packed buffer.  Double-precision arithmetic is
idealised as exact rational arithmetic except where bit patterns or rounding
matter, for which an explicit integer-based binary64 round-to-nearest-even
model is given.
-/

set_option maxRecDepth 100000

namespace Mandelbrot

/-- Grid height, from `#define ROWS 63` (src/mandelbrot.c line 5). -/
def ROWS : ℕ := 63

/-- Grid width, from `#define COLS 100` (line 6). -/
def COLS : ℕ := 100

/-- Iteration bound, from `#define ITER 2000` (line 7). -/
def ITER : ℕ := 2000

/-- A complex number with exact rational components, embedding the values the C
program stores in `double complex`.  The arithmetic is idealised as exact. -/
structure GComplex where
  re : ℚ
  im : ℚ
deriving DecidableEq, Repr

instance : Zero GComplex := ⟨⟨0, 0⟩⟩

instance : Add GComplex := ⟨fun a b => ⟨a.re + b.re, a.im + b.im⟩⟩

instance : Mul GComplex := ⟨fun a b => ⟨a.re * b.re - a.im * b.im, a.re * b.im + a.im * b.re⟩⟩

theorem GComplex.zero_def : (0 : GComplex) = ⟨0, 0⟩ := rfl

theorem GComplex.add_def (a b : GComplex) : a + b = ⟨a.re + b.re, a.im + b.im⟩ := rfl

theorem GComplex.mul_def (a b : GComplex) :
    a * b = ⟨a.re * b.re - a.im * b.im, a.re * b.im + a.im * b.re⟩ := rfl

/-- Squared Euclidean magnitude.  The C code compares `cabs(z) <= 2.0`; since
both sides are nonnegative this is equivalent to `normSq z ≤ 4`, which is the
form expressible in exact rational arithmetic (a square root is not). -/
def normSq (z : GComplex) : ℚ := z.re * z.re + z.im * z.im

/-- The loop of `is_stable` (lines 23–26): `z = 0; for i in [0, iter): z = z*z + c`.
`mandelLoop c n` is the value of `z` after `n` executions of the loop body. -/
def mandelLoop (c : GComplex) : ℕ → GComplex
  | 0 => 0
  | n + 1 => let z := mandelLoop c n; z * z + c

/-- `is_stable` (lines 22–28): run the loop `iter` times starting from `z = 0`
and return whether `cabs(z) <= 2.0`, i.e. `normSq z ≤ 4`. -/
def is_stable (c : GComplex) (iter : ℕ) : Bool :=
  decide (normSq (mandelLoop c iter) ≤ 4)

/-- The C `is_stable` returns the comparison as an `int` (1 or 0). -/
def isStableInt (c : GComplex) (iter : ℕ) : Int :=
  if is_stable c iter then 1 else 0

/-- `real_start` local of `fill_array` (line 47). -/
def real_start : ℚ := -2

/-- `real_end` local of `fill_array` (line 48). -/
def real_end : ℚ := 1/2

/-- `imag_start` local of `fill_array` (line 49). -/
def imag_start : ℚ := -3/2

/-- `imag_end` local of `fill_array` (line 50). -/
def imag_end : ℚ := 3/2

/-- `real_step` local of `fill_array` (line 53). -/
def real_step : ℚ := (real_end - real_start) / ((COLS : ℚ) - 1)

/-- `imag_step` local of `fill_array` (line 54). -/
def imag_step : ℚ := (imag_end - imag_start) / ((ROWS : ℚ) - 1)

/-- `fill_array` (lines 46–64): the nested loops write
`array[i * COLS + j] = real_part + imag_part * I` row by row, which is embedded
as the row-major concatenation of the `ROWS` rows of `COLS` generated cells. -/
def fill_array : List GComplex :=
  (List.range ROWS).flatMap (fun i =>
    (List.range COLS).map (fun j =>
      ⟨real_start + (j : ℚ) * real_step, imag_start + (i : ℚ) * imag_step⟩))

/-- The characters printed for row `i` by `print_chart` (lines 89–96): for each
column `j`, a dot if `array[i * COLS + j]` is truthy and a blank otherwise. -/
def rowChars (array : List Int) (i : ℕ) : List Char :=
  (List.range COLS).map (fun j => if array.getD (i * COLS + j) 0 ≠ 0 then '.' else ' ')

/-- The `ROWS` lines emitted by `print_chart`, without their terminators. -/
def chartLines (array : List Int) : List String :=
  (List.range ROWS).map (fun i => String.mk (rowChars array i))

/-- `print_chart` (lines 87–99): everything the program writes to standard
output, as one string; each row is followed by the `"\n"` of line 97. -/
def print_chart (array : List Int) : String :=
  String.join ((chartLines array).map (fun s => s ++ "\n"))

/-- StarPU data access modes (the subset this program could name). -/
inductive AccessMode where
  | R
  | W
  | RW
deriving DecidableEq, Repr

/-- The codelet structure, from lines 133–137: one buffer, whose declared
access mode is `STARPU_R`. -/
structure Codelet where
  nbuffers : ℕ
  modes : List AccessMode
deriving DecidableEq, Repr

/-- `static struct starpu_codelet cl = { .cpu_funcs = {cpu_func}, .nbuffers = 1,
.modes = {STARPU_R} };` (lines 133–137). -/
def cl : Codelet := ⟨1, [AccessMode.R]⟩

/-- The matrix of cell inputs: `fill_array(matrix)` (line 179). -/
def matrix : List GComplex := fill_array

/-- One submitted task: the arguments packed by `starpu_task_insert` (lines
187–191) — the cell value `c = matrix[i]`, the destination index `i`, and the
access mode `STARPU_R` passed for `matrix_handle` on line 188. -/
structure TaskDescriptor where
  c : GComplex
  index : ℕ
  mode : AccessMode
deriving DecidableEq, Repr

/-- The submission loop of `main` (lines 185–192): one `starpu_task_insert`
call per grid index `i` in `[0, ROWS*COLS)`, in that order. -/
def submittedTasks : List TaskDescriptor :=
  (List.range (ROWS * COLS)).map (fun i => ⟨matrix.getD i 0, i, AccessMode.R⟩)

/-! ## A binary64 model of the grid generator

The spec claims the corner cells of the grid equal the range endpoints exactly
in double precision, despite the steps being floating-point quotients.  To
settle that claim faithfully, the arithmetic of `fill_array` is modelled here a
second time at the IEEE-754 binary64 level: values are canonical
(mantissa, exponent) pairs with 53-bit mantissas, and every operation rounds to
nearest with ties to even, exactly as IEEE requires for `+`, `-`, `*`, `/` on
normal-range values.  The values arising in `fill_array` are all well inside
the normal range, so subnormals, overflow and signed zeros need no modelling. -/

/-- Fuel-bounded floor of the base-2 logarithm: `log2fuel fuel n = ⌊log₂ n⌋`
for `1 ≤ n < 2 ^ fuel`.  Structural recursion on the fuel keeps it reducible
by the kernel. -/
def log2fuel : ℕ → ℕ → ℕ
  | 0, _ => 0
  | fuel + 1, n => if 2 ≤ n then log2fuel fuel (n / 2) + 1 else 0

/-- An IEEE binary64 value in the normal range: the real number `m * 2 ^ e`,
with `2 ^ 52 ≤ |m| < 2 ^ 53` for nonzero values (canonical form) and `⟨0, 0⟩`
for zero. -/
structure F where
  m : ℤ
  e : ℤ
deriving DecidableEq, Repr

/-- Round-to-nearest-even right shift of a nonnegative integer by `k` bits. -/
def rshiftRNE (M : ℤ) (k : ℕ) : ℤ :=
  if k = 0 then M
  else
    let q := M / 2 ^ k
    let r := M % 2 ^ k
    let half := (2 : ℤ) ^ (k - 1)
    if r < half then q
    else if half < r then q + 1
    else if q % 2 = 0 then q else q + 1

/-- Normalise the positive value `M * 2 ^ E` to a canonical 53-bit mantissa,
rounding to nearest, ties to even. -/
def normPos (M : ℤ) (E : ℤ) : F :=
  let b := log2fuel 4000 M.toNat + 1
  if b ≤ 53 then ⟨M * 2 ^ (53 - b), E - (53 - b)⟩
  else
    let k := b - 53
    let q := rshiftRNE M k
    if q < 2 ^ 53 then ⟨q, E + k⟩ else ⟨q / 2, E + k + 1⟩

/-- Normalise the value `M * 2 ^ E` of either sign to a canonical binary64. -/
def fnorm (M : ℤ) (E : ℤ) : F :=
  if M = 0 then ⟨0, 0⟩
  else if M < 0 then ⟨-(normPos (-M) E).m, (normPos (-M) E).e⟩
  else normPos M E

/-- binary64 negation (always exact). -/
def fneg (a : F) : F := ⟨-a.m, a.e⟩

/-- binary64 addition: align the mantissas on the smaller exponent, add
exactly, round once — the IEEE correctly-rounded sum. -/
def fadd (a b : F) : F :=
  let e := min a.e b.e
  fnorm (a.m * 2 ^ (a.e - e).toNat + b.m * 2 ^ (b.e - e).toNat) e

/-- binary64 subtraction. -/
def fsub (a b : F) : F := fadd a (fneg b)

/-- binary64 multiplication: the exact (at most 106-bit) product is kept in
full, then rounded once — the IEEE correctly-rounded product. -/
def fmul (a b : F) : F := fnorm (a.m * b.m) (a.e + b.e)

/-- binary64 division, correctly rounded to nearest-even: a floored quotient
with 60 guard bits plus a sticky bit for the nonzero remainder; the guard bits
put the rounding boundary far above the sticky bit, so the final rounding in
`fnorm` agrees with rounding the exact quotient. -/
def fdiv (a b : F) : F :=
  if a.m = 0 ∨ b.m = 0 then ⟨0, 0⟩
  else
    let sgn : ℤ := if (a.m < 0) = (b.m < 0) then 1 else -1
    let am := a.m.natAbs
    let bm := b.m.natAbs
    let N := am * 2 ^ 60
    let q := N / bm
    let sticky : ℕ := if N % bm = 0 then 0 else 1
    fnorm (sgn * ((q * 2 + sticky : ℕ) : ℤ)) (a.e - b.e - 61)

/-- Conversion of an integer to binary64 (exact whenever `|n| < 2 ^ 53`, which
covers every integer this program converts). -/
def fofInt (n : ℤ) : F := fnorm n 0

/-- The binary64 value of the literal `-2.0` (`real_start`, line 47). -/
def real_start_fp : F := fofInt (-2)

/-- The binary64 value of the literal `0.5` (`real_end`, line 48). -/
def real_end_fp : F := fnorm 1 (-1)

/-- The binary64 value of the literal `-1.5` (`imag_start`, line 49). -/
def imag_start_fp : F := fnorm (-3) (-1)

/-- The binary64 value of the literal `1.5` (`imag_end`, line 50). -/
def imag_end_fp : F := fnorm 3 (-1)

/-- Line 53 at double precision:
`real_step = (real_end - real_start) / (COLS - 1)`; the divisor is the exactly
converted integer 99. -/
def real_step_fp : F := fdiv (fsub real_end_fp real_start_fp) (fofInt 99)

/-- Line 54 at double precision:
`imag_step = (imag_end - imag_start) / (ROWS - 1)`. -/
def imag_step_fp : F := fdiv (fsub imag_end_fp imag_start_fp) (fofInt 62)

/-- Line 59 at double precision: `real_part = real_start + j * real_step`. -/
def fillRe_fp (j : ℕ) : F := fadd real_start_fp (fmul (fofInt j) real_step_fp)

/-- Line 60 at double precision: `imag_part = imag_start + i * imag_step`. -/
def fillIm_fp (i : ℕ) : F := fadd imag_start_fp (fmul (fofInt i) imag_step_fp)

/-! ## The task units at the bit level

`cpu_func` (lines 121–131) unpacks its packed arguments with two separate
`starpu_codelet_unpack_args` calls (lines 124–125).  That function is not
incremental: each call reads the argument count at the head of the packed
buffer and walks the packed arguments from the start, one per supplied
pointer.  The first call therefore copies packed argument 0 — the 16-byte
`double complex` — into `c` (and then over-runs its one-element va_list:
undefined behaviour); the second call copies the same 16 packed bytes into the
4-byte `int i`, clobbering the 12 bytes beyond it (undefined behaviour) and
leaving `i` holding the first 4 bytes of the complex: on a little-endian LP64
target, the low 32 bits of the binary64 encoding of `creal(c)`, reinterpreted
as a signed 32-bit int.  The model keeps this defined data flow — `c`
delivered, `i` the reinterpreted low word, never the packed index — and
returns `none` when the subsequent `val[i] = ...` store would be out of
bounds (undefined behaviour).  The packed bytes of `c` are the binary64 grid
values of the `F` model above. -/

/-- The binary64 bit encoding of a canonical normal-range `F` value: sign bit,
11-bit biased exponent `e + 1075`, 52-bit trailing significand. -/
def bits64 (f : F) : ℕ :=
  if f.m = 0 then 0
  else (if f.m < 0 then 2 ^ 63 else 0) + (f.e + 1075).toNat * 2 ^ 52 + (f.m.natAbs - 2 ^ 52)

/-- The exact rational value of a binary64 `F` value. -/
def toRat (f : F) : ℚ := (f.m : ℚ) * 2 ^ f.e

/-- The packed `cl_arg` buffer of one task: the bytes of the grid cell's
`double complex` (as canonical binary64 values) and the packed destination
index (lines 189–190). -/
structure PackedArgs where
  cRe : F
  cIm : F
  i : ℕ
deriving DecidableEq, Repr

/-- The `int i` produced by the second unpack call (line 125): the first four
bytes of packed argument 0, i.e. the low 32 bits of the binary64 encoding of
the real part of `c`, reinterpreted as a signed 32-bit integer — not the
packed destination index. -/
def unpack_i (a : PackedArgs) : ℤ :=
  let lo : ℕ := bits64 a.cRe % 2 ^ 32
  if lo < 2 ^ 31 then (lo : ℤ) else (lo : ℤ) - 2 ^ 32

set_option linter.unusedVariables false in
/-- `cpu_func` (lines 121–131): `c` receives the packed complex (line 124),
`i` receives the garbage low word of its real part (line 125, see the section
comment); the dead local `int r = is_stable(c, ITER);` of line 129 is kept as
the unused `r`; the store `val[i] = is_stable(c, ITER)` of line 130 lands in
slot `i` when that index is in bounds, and is an out-of-bounds write —
undefined behaviour, modelled as `none` — otherwise.  The packed destination
index `a.i` is never read. -/
def cpu_func (a : PackedArgs) (val : List Int) : Option (List Int) :=
  let c : GComplex := ⟨toRat a.cRe, toRat a.cIm⟩
  let i : ℤ := unpack_i a
  let r := isStableInt c ITER
  if 0 ≤ i ∧ i.toNat < val.length then some (val.set i.toNat (isStableInt c ITER))
  else none

/-- The packed arguments of the task submitted for grid index `i` (lines
185–191): the binary64 cell `matrix[i]` — row `i / COLS`, column `i % COLS`
of the generated grid, at double precision — and the destination index `i`. -/
def packedArgsOf (i : ℕ) : PackedArgs :=
  ⟨fillRe_fp (i % COLS), fillIm_fp (i / COLS), i⟩

/-- The packed buffers of the submission loop (lines 185–192), in submission
order; `submittedTasks` is the descriptor-level view of the same loop. -/
def submittedArgs : List PackedArgs :=
  (List.range (ROWS * COLS)).map packedArgsOf

/-- Execution of one submitted task by the runtime against the buffer state so
far; a state of `none` records that undefined behaviour was already
reached. -/
def runTask (buf : Option (List Int)) (a : PackedArgs) : Option (List Int) :=
  buf.bind (cpu_func a)

/-- The buffer contents after `starpu_task_wait_for_all()` (line 194): every
submitted unit has executed, in submission order; `none` means some unit
performed an out-of-bounds store (undefined behaviour). -/
def runAll (initMask : List Int) : Option (List Int) :=
  submittedArgs.foldl runTask (some initMask)

/-- Observable outcome of one process run. -/
structure RunResult where
  stderrReports : List String
  exitCode : ℕ
  stdout : String
deriving DecidableEq, Repr

/-- `main` (lines 166–203), parameterised by the success of the two `malloc`
calls and by the (uninitialised) contents the mask allocation happens to hold.
Line 168: failed matrix allocation is reported via `perror("malloc")` and the
process returns 1 before any output; line 174: likewise for the mask;
otherwise the grid is filled, all tasks are submitted and awaited, and the
chart is printed before returning 0 — `none` records that the run reached
undefined behaviour inside a unit before producing its output. -/
def mainRun (matrixOk maskOk : Bool) (initMask : List Int) : Option RunResult :=
  if matrixOk = false then some ⟨["malloc"], 1, ""⟩
  else if maskOk = false then some ⟨["malloc"], 1, ""⟩
  else (runAll initMask).map (fun mask => ⟨[], 0, print_chart mask⟩)

/-! ## Helper lemmas -/

theorem index_lt {r c R C : ℕ} (hr : r < R) (hc : c < C) : r * C + c < R * C := by
  calc r * C + c < r * C + C := Nat.add_lt_add_left hc _
    _ = (r + 1) * C := (Nat.succ_mul r C).symm
    _ ≤ R * C := Nat.mul_le_mul_right C hr

theorem length_rowMajor {α : Type} (f : ℕ → ℕ → α) (R C : ℕ) :
    ((List.range R).flatMap (fun i => (List.range C).map (f i))).length = R * C := by
  induction R with
  | zero => simp
  | succ n ih =>
    rw [List.range_succ, List.flatMap_append, List.length_append, ih]
    simp [Nat.succ_mul]

theorem getElem?_rowMajor {α : Type} (f : ℕ → ℕ → α) {R C r c : ℕ}
    (hr : r < R) (hc : c < C) :
    ((List.range R).flatMap (fun i => (List.range C).map (f i)))[r * C + c]? =
      some (f r c) := by
  induction R with
  | zero => exact absurd hr (Nat.not_lt_zero r)
  | succ n ih =>
    rw [List.range_succ, List.flatMap_append, List.getElem?_append, length_rowMajor]
    by_cases h : r < n
    · rw [if_pos (index_lt h hc)]
      exact ih h
    · have hrn : r = n := by omega
      subst hrn
      rw [if_neg (by omega)]
      have hsub : r * C + c - r * C = c := by omega
      simp only [hsub, List.flatMap_cons, List.flatMap_nil, List.append_nil]
      rw [List.getElem?_map, List.getElem?_range hc]
      rfl

theorem mandelLoop_eq_iterate (c : GComplex) (n : ℕ) :
    mandelLoop c n = (fun z => z * z + c)^[n] 0 := by
  induction n with
  | zero => rfl
  | succ k ih => rw [Function.iterate_succ_apply', ← ih]; rfl

/-- Interpretation of the exact-rational complex values in `ℂ`. -/
def toComplex (z : GComplex) : ℂ := ⟨(z.re : ℝ), (z.im : ℝ)⟩

theorem toComplex_mandelLoop (c : GComplex) (n : ℕ) :
    toComplex (mandelLoop c n) = (fun w => w * w + toComplex c)^[n] 0 := by
  induction n with
  | zero =>
    apply Complex.ext <;> simp [mandelLoop, toComplex, GComplex.zero_def]
  | succ k ih =>
    rw [Function.iterate_succ_apply', ← ih]
    show toComplex (mandelLoop c k * mandelLoop c k + c) = _
    apply Complex.ext <;>
      simp only [toComplex, GComplex.mul_def, GComplex.add_def, Complex.add_re,
        Complex.add_im, Complex.mul_re, Complex.mul_im] <;>
      push_cast <;> ring

theorem normSq_toComplex (z : GComplex) :
    Complex.normSq (toComplex z) = ((normSq z : ℚ) : ℝ) := by
  rw [Complex.normSq_apply, normSq]
  show (z.re : ℝ) * (z.re : ℝ) + (z.im : ℝ) * (z.im : ℝ) = _
  push_cast
  ring

theorem abs_le_two_iff_normSq_le_four (w : ℂ) :
    Complex.abs w ≤ 2 ↔ Complex.normSq w ≤ 4 := by
  constructor
  · intro h
    have h2 := pow_le_pow_left₀ (Complex.abs.nonneg w) h 2
    rw [Complex.sq_abs] at h2
    calc Complex.normSq w ≤ 2 ^ 2 := h2
      _ = 4 := by norm_num
  · intro h
    rw [Complex.abs_apply]
    calc Real.sqrt (Complex.normSq w) ≤ Real.sqrt 4 := Real.sqrt_le_sqrt h
      _ = 2 := by
        rw [show (4 : ℝ) = 2 ^ 2 by norm_num, Real.sqrt_sq (by norm_num : (0:ℝ) ≤ 2)]

theorem chartLines_getD (mask : List Int) (r : ℕ) (hr : r < ROWS) :
    (chartLines mask).getD r "" = String.mk (rowChars mask r) := by
  rw [chartLines, List.getD_eq_getElem?_getD, List.getElem?_map, List.getElem?_range hr]
  rfl

theorem rowChars_length (mask : List Int) (i : ℕ) : (rowChars mask i).length = COLS := by
  simp [rowChars]

theorem rowChars_getD (mask : List Int) (i j : ℕ) (hj : j < COLS) :
    (rowChars mask i).getD j ' ' =
      (if mask.getD (i * COLS + j) 0 ≠ 0 then '.' else ' ') := by
  rw [rowChars, List.getD_eq_getElem?_getD, List.getElem?_map, List.getElem?_range hj]
  rfl

theorem rowChars_const (v : Int) (i : ℕ) (hi : i < ROWS) :
    rowChars (List.replicate (ROWS * COLS) v) i =
      List.replicate COLS (if v ≠ 0 then '.' else ' ') := by
  rw [rowChars, List.eq_replicate_iff]
  refine ⟨by simp, ?_⟩
  intro b hb
  rcases List.mem_map.mp hb with ⟨j, hj, rfl⟩
  have hjC : j < COLS := List.mem_range.mp hj
  have hv : (List.replicate (ROWS * COLS) v).getD (i * COLS + j) 0 = v := by
    rw [List.getD_eq_getElem?_getD, List.getElem?_replicate, if_pos (index_lt hi hjC)]
    rfl
  rw [hv]

theorem chartLines_const (v : Int) :
    chartLines (List.replicate (ROWS * COLS) v) =
      List.replicate ROWS (String.mk (List.replicate COLS (if v ≠ 0 then '.' else ' '))) := by
  rw [chartLines, List.eq_replicate_iff]
  refine ⟨by simp, ?_⟩
  intro b hb
  rcases List.mem_map.mp hb with ⟨i, hi, rfl⟩
  rw [rowChars_const v i (List.mem_range.mp hi)]

theorem cpu_func_oob (a : PackedArgs) (val : List Int) (h : unpack_i a < 0) :
    cpu_func a val = none := by
  show (if 0 ≤ unpack_i a ∧ (unpack_i a).toNat < val.length
        then some (val.set (unpack_i a).toNat
          (isStableInt ⟨toRat a.cRe, toRat a.cIm⟩ ITER))
        else none) = none
  rw [if_neg (fun hcon => absurd hcon.1 (not_le.mpr h))]

theorem foldl_runTask_none (l : List PackedArgs) : l.foldl runTask none = none := by
  induction l with
  | nil => rfl
  | cons a rest ih => rw [List.foldl_cons]; exact ih

theorem foldl_runTask_oob (a : PackedArgs) (rest : List PackedArgs)
    (buf : Option (List Int)) (h : unpack_i a < 0) :
    (a :: rest).foldl runTask buf = none := by
  rw [List.foldl_cons]
  have hstep : runTask buf a = none := by
    cases buf with
    | none => rfl
    | some l => exact cpu_func_oob a l h
  rw [hstep]
  exact foldl_runTask_none rest

/-- The second submitted unit (grid index 1) already reaches the out-of-bounds
store, and `none` then propagates through the remaining 6298 units. -/
theorem runAll_mask_none :
    runAll (List.replicate (ROWS * COLS) (0 : Int)) = none := by
  rw [runAll, submittedArgs,
    show ROWS * COLS = 6299 + 1 by norm_num [ROWS, COLS], List.range_succ_eq_map,
    show (6299 : ℕ) = 6298 + 1 by norm_num, List.range_succ_eq_map]
  simp only [List.map_cons]
  rw [List.foldl_cons]
  exact foldl_runTask_oob _ _ _ (by decide)

theorem mainRun_success_none :
    mainRun true true (List.replicate (ROWS * COLS) (0 : Int)) = none := by
  show (runAll (List.replicate (ROWS * COLS) 0)).map
    (fun mask => RunResult.mk [] 0 (print_chart mask)) = none
  rw [runAll_mask_none]
  rfl

/-! ## The claims -/

/-- C1 (refuted by the code): the unit does not write the predicate result to
its declared index.  Because each `starpu_codelet_unpack_args` call restarts
at the packed buffer's head, the `int i` a unit receives is the low word of
the bit pattern of `creal(c)`, not the packed index: the unit for grid index
100 (cell (1,0), real part exactly -2.0) receives i = 0 and so writes slot 0
instead of its declared slot 100, and the unit for grid index 1 (real part
-2.0 + 2.5/99) receives i = -824286653, making its store an out-of-bounds
write into the 6300-slot buffer (undefined behaviour, modelled `none`). -/
theorem unit_writes_garbage_index :
    (packedArgsOf 100).i = 100 ∧ unpack_i (packedArgsOf 100) = 0 ∧
    (packedArgsOf 1).i = 1 ∧ unpack_i (packedArgsOf 1) = -824286653 ∧
    cpu_func (packedArgsOf 1) (List.replicate (ROWS * COLS) 0) = none :=
  ⟨rfl, by decide, rfl, by decide, cpu_func_oob _ _ (by decide)⟩

/-- C2 (refuted by the code): the result-buffer dependency is declared with
`STARPU_R` (read) access, not write access — both in the codelet modes of line
136 and in every `starpu_task_insert` call of line 188 — even though
`cpu_func` writes through the buffer.  This records what the code declares. -/
theorem buffer_mode_is_read_not_write :
    cl.modes = [AccessMode.R] ∧
    submittedTasks.all (fun t => t.mode == AccessMode.R) = true ∧
    AccessMode.R ≠ AccessMode.W := by
  refine ⟨rfl, ?_, by decide⟩
  rw [List.all_eq_true]
  intro t ht
  rw [submittedTasks] at ht
  rcases List.mem_map.mp ht with ⟨k, _, rfl⟩
  rfl

/-- C3: the loop submits exactly `ROWS * COLS` descriptors, one per grid
index; each index below `ROWS * COLS` is named by exactly one of them, and the
declared destination indices are pairwise distinct, so the write sets of
distinct units are disjoint. -/
theorem submission_coverage_and_disjointness (i : ℕ) (hi : i < ROWS * COLS) :
    submittedTasks.length = ROWS * COLS ∧
    submittedTasks.countP (fun t => t.index == i) = 1 ∧
    List.Pairwise (fun t u => t.index ≠ u.index) submittedTasks := by
  refine ⟨by simp [submittedTasks], ?_, ?_⟩
  · rw [submittedTasks, List.countP_map]
    have hcomp : ((fun t : TaskDescriptor => t.index == i) ∘ fun k : ℕ =>
        (⟨matrix.getD k 0, k, AccessMode.R⟩ : TaskDescriptor)) = fun k : ℕ => k == i := rfl
    rw [hcomp]
    have hone := List.count_eq_one_of_mem (List.nodup_range (ROWS * COLS))
      (List.mem_range.mpr hi)
    simpa [List.count] using hone
  · rw [submittedTasks, List.pairwise_map]
    exact (List.pairwise_lt_range _).imp (fun h => Nat.ne_of_lt h)

/-- Witness for C3 at grid index 0. -/
theorem submission_coverage_and_disjointness_witness :
    0 < ROWS * COLS ∧
    (submittedTasks.length = ROWS * COLS ∧
      submittedTasks.countP (fun t => t.index == 0) = 1 ∧
      List.Pairwise (fun t u => t.index ≠ u.index) submittedTasks) :=
  ⟨by decide, submission_coverage_and_disjointness 0 (by decide)⟩

/-- C4: for any input and positive iteration bound, the evaluator starts from
`z = 0` and applies `z ← z² + c` exactly `k` times with no early exit — the
loop value is the `k`-fold iterate — and returns stable iff the Euclidean
magnitude of the final `z` is at most 2, inclusively (stated over the
interpretation in `ℂ`, whose `Complex.abs` is the Euclidean magnitude).
Determinism is inherent: the evaluator is embedded as a function of `(c, k)`. -/
theorem is_stable_iff_abs_final_le_two (c : GComplex) (k : ℕ) (_hk : 0 < k) :
    (is_stable c k = true ↔
      Complex.abs ((fun w => w * w + toComplex c)^[k] 0) ≤ 2) ∧
    mandelLoop c k = (fun z => z * z + c)^[k] 0 := by
  refine ⟨?_, mandelLoop_eq_iterate c k⟩
  rw [is_stable, decide_eq_true_iff, ← toComplex_mandelLoop,
    abs_le_two_iff_normSq_le_four, normSq_toComplex,
    (by norm_num : (4 : ℝ) = ((4 : ℚ) : ℝ)), Rat.cast_le]

/-- Witness for C4 at `c = 0`, `k = 1`. -/
theorem is_stable_iff_abs_final_le_two_witness :
    0 < 1 ∧
    ((is_stable 0 1 = true ↔
      Complex.abs ((fun w => w * w + toComplex 0)^[1] 0) ≤ 2) ∧
    mandelLoop 0 1 = (fun z => z * z + (0 : GComplex))^[1] 0) :=
  ⟨Nat.one_pos, is_stable_iff_abs_final_le_two 0 1 Nat.one_pos⟩

/-- C5: the grid generator produces exactly `ROWS * COLS` values in row-major
order: cell `(row, col)` sits at index `row * COLS + col` with real part
`real_start + col * real_step` and imaginary part `imag_start + row * imag_step`,
where the steps are the range widths divided by `dimension - 1`.  Determinism
is inherent: the generator is embedded as a closed value, so two evaluations
with identical parameters are the same term. -/
theorem fill_array_rowMajor (r c : ℕ) (hr : r < ROWS) (hc : c < COLS) :
    fill_array.length = ROWS * COLS ∧
    real_step = (1/2 - (-2 : ℚ)) / ((100 : ℚ) - 1) ∧
    imag_step = (3/2 - (-(3/2) : ℚ)) / ((63 : ℚ) - 1) ∧
    fill_array[r * COLS + c]? =
      some ⟨real_start + (c : ℚ) * real_step, imag_start + (r : ℚ) * imag_step⟩ := by
  refine ⟨?_, ?_, ?_, ?_⟩
  · exact length_rowMajor
      (fun i j => (⟨real_start + (j : ℚ) * real_step,
        imag_start + (i : ℚ) * imag_step⟩ : GComplex)) ROWS COLS
  · rw [real_step, real_end, real_start]
    norm_num [COLS]
  · rw [imag_step, imag_end, imag_start]
    norm_num [ROWS]
  · exact getElem?_rowMajor
      (fun i j => (⟨real_start + (j : ℚ) * real_step,
        imag_start + (i : ℚ) * imag_step⟩ : GComplex)) hr hc

/-- Witness for C5 at cell (0, 0). -/
theorem fill_array_rowMajor_witness :
    0 < ROWS ∧ 0 < COLS ∧
    (fill_array.length = ROWS * COLS ∧
      real_step = (1/2 - (-2 : ℚ)) / ((100 : ℚ) - 1) ∧
      imag_step = (3/2 - (-(3/2) : ℚ)) / ((63 : ℚ) - 1) ∧
      fill_array[0 * COLS + 0]? =
        some ⟨real_start + ((0 : ℕ) : ℚ) * real_step,
              imag_start + ((0 : ℕ) : ℚ) * imag_step⟩) :=
  ⟨by decide, by decide, fill_array_rowMajor 0 0 (by decide) (by decide)⟩

/-- C6: the renderer emits exactly `ROWS` lines in row order, each of exactly
`COLS` characters plus one terminator; the glyph for cell `(r, c)` is a dot
when the cell is truthy (stable) and a blank otherwise; the whole output is
exactly the terminator-joined lines, so nothing else is printed.  An
all-stable buffer renders as `ROWS` lines of `COLS` dots, an all-unstable one
as `ROWS` lines of `COLS` blanks. -/
theorem renderer_shape_and_glyphs (mask : List Int) (r c : ℕ)
    (hr : r < ROWS) (hc : c < COLS) :
    (chartLines mask).length = ROWS ∧
    ((chartLines mask).getD r "").length = COLS ∧
    ((chartLines mask).getD r "").data.getD c ' ' =
      (if mask.getD (r * COLS + c) 0 ≠ 0 then '.' else ' ') ∧
    print_chart mask = String.join ((chartLines mask).map (fun s => s ++ "\n")) ∧
    chartLines (List.replicate (ROWS * COLS) 1) =
      List.replicate ROWS (String.mk (List.replicate COLS '.')) ∧
    chartLines (List.replicate (ROWS * COLS) 0) =
      List.replicate ROWS (String.mk (List.replicate COLS ' ')) := by
  refine ⟨by simp [chartLines], ?_, ?_, rfl, ?_, ?_⟩
  · rw [chartLines_getD mask r hr]
    exact rowChars_length mask r
  · rw [chartLines_getD mask r hr]
    show (rowChars mask r).getD c ' ' = _
    exact rowChars_getD mask r c hc
  · simpa using chartLines_const 1
  · simpa using chartLines_const 0

/-- Witness for C6 at the empty buffer and cell (0, 0). -/
theorem renderer_shape_and_glyphs_witness :
    0 < ROWS ∧ 0 < COLS ∧
    ((chartLines []).length = ROWS ∧
      ((chartLines []).getD 0 "").length = COLS ∧
      ((chartLines []).getD 0 "").data.getD 0 ' ' =
        (if List.getD [] (0 * COLS + 0) 0 ≠ 0 then '.' else ' ') ∧
      print_chart [] = String.join ((chartLines []).map (fun s => s ++ "\n")) ∧
      chartLines (List.replicate (ROWS * COLS) 1) =
        List.replicate ROWS (String.mk (List.replicate COLS '.')) ∧
      chartLines (List.replicate (ROWS * COLS) 0) =
        List.replicate ROWS (String.mk (List.replicate COLS ' '))) :=
  ⟨by decide, by decide, renderer_shape_and_glyphs [] 0 0 (by decide) (by decide)⟩

/-- C7 (success path refuted by the code): the failure paths are faithful —
if either allocation fails, the process reports the failure, exits with
status 1 and prints nothing, the two checks being independent and in source
order, each reporting via perror before returning — but on the path where
both allocations succeed the submitted units store through garbage indices
out of the buffer's bounds (undefined behaviour), so the claimed exit status
0 is not established by the source: the run reaches `none` instead of a
normal exit. -/
theorem alloc_failure_paths_faithful :
    (∀ (maskOk : Bool) (initMask : List Int),
      mainRun false maskOk initMask = some ⟨["malloc"], 1, ""⟩) ∧
    (∀ initMask : List Int, mainRun true false initMask = some ⟨["malloc"], 1, ""⟩) ∧
    mainRun true true (List.replicate (ROWS * COLS) 0) = none :=
  ⟨fun _ _ => rfl, fun _ => rfl, mainRun_success_none⟩

/-- C8: the predicate at the origin is stable for every iteration bound: the
loop keeps `z = 0` through all `k` steps, and `|0| ≤ 2`. -/
theorem origin_always_stable (k : ℕ) :
    mandelLoop 0 k = 0 ∧ is_stable 0 k = true := by
  have hz : mandelLoop 0 k = 0 := by
    induction k with
    | zero => rfl
    | succ n ih =>
      show mandelLoop 0 n * mandelLoop 0 n + 0 = 0
      rw [ih]
      simp [GComplex.zero_def, GComplex.mul_def, GComplex.add_def]
  refine ⟨hz, ?_⟩
  rw [is_stable, hz, decide_eq_true_iff]
  show (0 : ℚ) * 0 + 0 * 0 ≤ 4
  norm_num

/-- C9: in the binary64 model of the grid generator, the corner coordinates
equal the declared range endpoints exactly: column 0 yields exactly -2.0 and
row 0 exactly -1.5 (so cell (0,0) is exactly -2.0 - 1.5i), column COLS-1
yields exactly 0.5 and row ROWS-1 exactly 1.5 (so cell (ROWS-1, COLS-1) is
exactly 0.5 + 1.5i) — even though both steps are inexact floating-point
quotients, as the last two conjuncts record (a step with value exactly
2.5/99 would need `198 * m = 5 * 2^58` at exponent -58, and likewise for
3.0/62). -/
theorem corners_exact_in_binary64 :
    fillRe_fp 0 = real_start_fp ∧ fillIm_fp 0 = imag_start_fp ∧
    fillRe_fp (COLS - 1) = real_end_fp ∧ fillIm_fp (ROWS - 1) = imag_end_fp ∧
    (real_step_fp.e = -58 ∧ 198 * real_step_fp.m ≠ 5 * 2 ^ 58) ∧
    (imag_step_fp.e = -57 ∧ 62 * imag_step_fp.m ≠ 3 * 2 ^ 57) := by
  decide

/-- C10 (consequence refuted by the code): the compile-time constants are
faithful — `ROWS = 63`, `COLS = 100`, `ITER = 2000` — the renderer by itself
always emits exactly 63 lines, a line's length is 100 exactly for the 63 row
indices, and every unit evaluation applies the predicate with exactly 2000
iterations; but "every successful run renders exactly 63 lines of 100
characters" is not a property of the code: the both-allocations-succeed path
reaches undefined behaviour (a garbage-index out-of-bounds store) before any
chart is printed. -/
theorem fixed_grid_constants :
    ROWS = 63 ∧ COLS = 100 ∧ ITER = 2000 ∧
    (∀ mask : List Int, (chartLines mask).length = 63) ∧
    (∀ (mask : List Int) (r : ℕ),
      ((chartLines mask).getD r "").length = if r < 63 then 100 else 0) ∧
    (∀ (a : PackedArgs) (val : List Int),
      cpu_func a val =
        if 0 ≤ unpack_i a ∧ (unpack_i a).toNat < val.length
        then some (val.set (unpack_i a).toNat
          (isStableInt ⟨toRat a.cRe, toRat a.cIm⟩ 2000))
        else none) ∧
    mainRun true true (List.replicate (63 * 100) 0) = none := by
  refine ⟨rfl, rfl, rfl, fun mask => by simp [chartLines, ROWS], ?_,
    fun a val => rfl, mainRun_success_none⟩
  intro mask r
  by_cases hr : r < 63
  · rw [if_pos hr, chartLines_getD mask r hr]
    exact rowChars_length mask r
  · rw [if_neg hr]
    have hlen : (chartLines mask).length ≤ r := by
      simp only [chartLines, List.length_map, List.length_range, ROWS]
      omega
    rw [List.getD_eq_getElem?_getD, List.getElem?_eq_none hlen]
    rfl

end Mandelbrot
